import Mathlib

/-!
Shallow embedding of the ordered-line integrity engine of GeologicalToolbox
(src/ModellingToolbox/Resources/Geometries.py and src/Resources/GeoObject.py).

Coordinates are floats in the source; they are embedded as rationals, which
preserves the exact-equality and tolerance-comparison structure used by the
code. A `GeoPoint` is embedded as `Pt`, keeping exactly the fields the
reviewed logic reads: stored easting/northing/altitude (`AbstractGeoObject`
stores the given values and its getters return `float(self.east)` etc.
unchanged), the `has_z` flag, the ordering-list column `line_pos`, and the
stratigraphy reference `horizon` (embedded as an opaque `Option Nat`
identifier, since only assignment and equality of the reference matter to the
reviewed logic). A `Line` is embedded as `LineState`: its `closed` flag,
`horizon` reference and ordered `points` collection.

Dynamically typed inputs that the code type-checks (`type(pnt) is not
GeoPoint`) are embedded as `Elem`, either a well-typed point or an arbitrary
other value. Python exceptions are embedded as `Except PyErr`.
-/

/-- Coordinate triple (easting, northing, altitude) as read by the
deduplication and closure logic. -/
abbrev Coord := ℚ × ℚ × ℚ

/-- Embedding of `GeoPoint` restricted to the fields the reviewed logic
reads and writes. -/
structure Pt where
  east : ℚ
  north : ℚ
  alt : ℚ
  has_z : Bool
  line_pos : Int
  horizon : Option Nat
deriving DecidableEq, Repr

/-- Embedding of a `Line`: the `closed` column, the stratigraphy reference
and the ordered point collection. -/
structure LineState where
  closed : Bool
  horizon : Option Nat
  points : List Pt
deriving DecidableEq, Repr

/-- A dynamically typed argument: either an actual `GeoPoint` or a value of
some other Python type. -/
inductive Elem where
  | geoPoint (p : Pt)
  | other
deriving DecidableEq, Repr

/-- Python exception kinds raised by the embedded code paths. -/
inductive PyErr where
  | typeError (msg : String)
  | valueError (msg : String)
  | indexError
deriving DecidableEq, Repr

def Elem.isGeoPoint : Elem → Bool
  | .geoPoint _ => true
  | .other => false

def Elem.toPt : Elem → Option Pt
  | .geoPoint p => some p
  | .other => none

/-- The comparison key `(pnt.easting, pnt.northing, pnt.altitude)` built at
Geometries.py:542-543 and 551-552. The getters (GeoObject.py:59-119) return
the stored column values unchanged. -/
def Pt.coords (p : Pt) : Coord := (p.east, p.north, p.alt)

/-- Coordinate view of a point list. -/
def coordsList (l : List Pt) : List Coord := l.map Pt.coords

/-- One step of the adjacent-duplicate loop of `Line.__remove_doubled_points`
(Geometries.py:541-547): `prev` is the snapshot predecessor `tmp_pnts[i]`,
and the element `tmp_pnts[i+1]` is removed exactly when its coordinate triple
equals the predecessor's. The predecessor always advances along the snapshot
copy `tmp_pnts`, never along the mutated list. -/
def dedupAux (prev : Pt) : List Pt → List Pt
  | [] => []
  | q :: rest =>
    if q.coords = prev.coords then dedupAux q rest else q :: dedupAux q rest

/-- The full adjacent-duplicate pass of `Line.__remove_doubled_points`
(Geometries.py:539-547): a single left-to-right scan of the snapshot copy. -/
def dedupStep : List Pt → List Pt
  | [] => []
  | p :: rest => p :: dedupAux p rest

/-- `l[-1]`: the last element of a list, `none` on the empty list (where the
Python indexing raises IndexError). -/
def lastO {α : Type} : List α → Option α
  | [] => none
  | [a] => some a
  | _ :: b :: t => lastO (b :: t)

/-- `del l[-1]`: drop the last element. -/
def dropLastL {α : Type} : List α → List α
  | [] => []
  | [_] => []
  | a :: b :: t => a :: dropLastL (b :: t)

/-- `self.points.reorder()` (Geometries.py:559): the ordering list rewrites
every member's `line_pos` to its 0-based position. -/
def reorder (n : Int) : List Pt → List Pt
  | [] => []
  | p :: rest => { p with line_pos := n } :: reorder (n + 1) rest

/-- `Line.__check_line` (Geometries.py:520-530): assign the line's
stratigraphy to every member point. -/
def checkLine (st : LineState) : LineState :=
  { st with points := st.points.map (fun p => { p with horizon := st.horizon }) }

/-- `Line.__remove_doubled_points` (Geometries.py:532-559): the single
adjacent-duplicate pass, then the closure fold comparing `self.points[0]`
against `self.points[-1]` (raising IndexError when the list is empty; when
the two triples are equal the last point is deleted and `closed` is forced
to True), then `reorder`. -/
def removeDoubledPoints (st : LineState) : Except PyErr LineState :=
  let l := dedupStep st.points
  match l.head?, lastO l with
  | some p, some q =>
    if p.coords = q.coords then
      .ok { st with points := reorder 0 (dropLastL l), closed := true }
    else
      .ok { st with points := reorder 0 l, closed := st.closed }
  | _, _ => .error PyErr.indexError

/-- The normalization pipeline run after every structural mutation:
`self.__remove_doubled_points()` followed by `self.__check_line()`. -/
def normPipeline (st : LineState) : Except PyErr LineState :=
  (removeDoubledPoints st).map checkLine

/-- `Line.__init__` (Geometries.py:286-317): every element of `points` is
type-checked first (raising ValueError on the first mismatch, before any
state is assembled), then the fields are assigned and the pipeline runs. -/
def Line.init (closed : Bool) (horizon : Option Nat) (elems : List Elem) :
    Except PyErr LineState :=
  if elems.all Elem.isGeoPoint then
    normPipeline
      { closed := closed, horizon := horizon,
        points := elems.filterMap Elem.toPt }
  else
    .error (PyErr.valueError ("At least on point in points is not of type GeoPoint!"))

/-- Python index resolution shared by `list.insert` and slice assignment:
negative indices count from the end, and the result is clamped to
`[0, len]`. -/
def pyResolve (n : Nat) (i : Int) : Nat :=
  if i < 0 then ((n : Int) + i).toNat else min i.toNat n

/-- `l[i:i] = new` (and `l.insert(i, x)` when `new = [x]`): splice `new` at
the resolved index. -/
def pySplice (l : List Pt) (i : Int) (new : List Pt) : List Pt :=
  let j := pyResolve l.length i
  l.take j ++ new ++ l.drop j

/-- `Line.insert_point` (Geometries.py:398-419): type-check, then
`self.points.insert(position, point)`, then the pipeline. -/
def Line.insert_point (st : LineState) (e : Elem) (pos : Int) :
    Except PyErr LineState :=
  match e with
  | .other => .error (PyErr.typeError ("point is not of type GeoPoint!"))
  | .geoPoint p => normPipeline { st with points := pySplice st.points pos [p] }

/-- `Line.insert_points` (Geometries.py:421-448): every element is
type-checked before any insertion; then `self.points[-1:-1] = points` when
`len(self.points) <= position`, else `self.points[position:position] =
points`; then the pipeline. -/
def Line.insert_points (st : LineState) (elems : List Elem) (pos : Int) :
    Except PyErr LineState :=
  if elems.all Elem.isGeoPoint then
    let ps := elems.filterMap Elem.toPt
    let pts :=
      if (st.points.length : Int) ≤ pos then pySplice st.points (-1) ps
      else pySplice st.points pos ps
    normPipeline { st with points := pts }
  else
    .error (PyErr.typeError ("At least on point in points is not of type GeoPoint!"))

/-- `list.remove(x)`: drop the first occurrence of `x`, or fail. -/
def removeFirst (p : Pt) : List Pt → Option (List Pt)
  | [] => none
  | q :: rest =>
    if q = p then some rest else (removeFirst p rest).map (q :: ·)

/-- `Line.delete_point` (Geometries.py:463-484): type-check, then
`self.points.remove(point)` (ValueError when absent), then the pipeline. -/
def Line.delete_point (st : LineState) (e : Elem) : Except PyErr LineState :=
  match e with
  | .other => .error (PyErr.typeError ("point is not of type GeoPoint!"))
  | .geoPoint p =>
    match removeFirst p st.points with
    | none => .error (PyErr.valueError ("GeoPoint not found in list!"))
    | some pts => normPipeline { st with points := pts }

/-- Python `abs` on a number. -/
def ratAbs (x : ℚ) : ℚ := if x < 0 then -x else x

/-- The per-point match test of `Line.delete_point_by_coordinates`
(Geometries.py:509-511): easting and northing within `float_precision`, and
altitude within `float_precision` or `has_z` false. -/
def pMatch (e n a prec : ℚ) (q : Pt) : Bool :=
  decide (ratAbs (q.east - e) < prec) && decide (ratAbs (q.north - n) < prec) &&
    (decide (ratAbs (q.alt - a) < prec) || !q.has_z)

/-- The scan loop of `Line.delete_point_by_coordinates` over the snapshot
`self.points[:]`, with `i` the index of the scanned element in the original
list: on the first match the point is removed from the line and the pipeline
runs; after a full scan without a match a ValueError is raised. -/
def deleteByCoordsGo (st : LineState) (e n a prec : ℚ) :
    Nat → List Pt → Except PyErr LineState
  | _, [] => .error (PyErr.valueError ("Point not found with coordinates"))
  | i, q :: rest =>
    if pMatch e n a prec q then
      normPipeline { st with points := st.points.eraseIdx i }
    else
      deleteByCoordsGo st e n a prec (i + 1) rest

/-- `Line.delete_point_by_coordinates` (Geometries.py:486-518). The module
`Resources.constants` is not part of the reviewed sources, so the tolerance
`float_precision` is passed as the parameter `prec`. -/
def Line.delete_point_by_coordinates (st : LineState) (e n a prec : ℚ) :
    Except PyErr LineState :=
  deleteByCoordsGo st e n a prec 0 st.points

/-- The `Line.horizon` setter (Geometries.py:380-396): store the new
stratigraphy reference (or clear it) and run `__check_line`. -/
def Line.setHorizon (st : LineState) (hz : Option Nat) : LineState :=
  checkLine { st with horizon := hz }

/-- Index of the first point matching the coordinate scan predicate. -/
def firstMatchIdx (e n a prec : ℚ) : List Pt → Option Nat
  | [] => none
  | q :: rest =>
    if pMatch e n a prec q then some 0
    else (firstMatchIdx e n a prec rest).map (· + 1)

/-- A fresh altitude-less point as produced by the `GeoPoint` constructor:
`has_z` false, stored altitude 0, unattached (`line_pos = -1`), no
stratigraphy. -/
def mkP (e n : ℚ) : Pt := ⟨e, n, 0, false, -1, none⟩

/-- The no-adjacent-duplicates predicate on a point list: no two consecutive
points share a coordinate triple. -/
def noAdjDup : List Pt → Prop
  | [] => True
  | [_] => True
  | a :: b :: t => a.coords ≠ b.coords ∧ noAdjDup (b :: t)

/-- `noAdjDup` on bare coordinate triples. -/
def noAdjDupC : List Coord → Prop
  | [] => True
  | [_] => True
  | a :: b :: t => a ≠ b ∧ noAdjDupC (b :: t)

/-- The classification-propagation invariant: every member point carries the
line's stratigraphy reference. -/
def Propagated (st : LineState) : Prop := ∀ p ∈ st.points, p.horizon = st.horizon

/-- A persisted `GeoPoint` row as read by `Line.load_in_extent_from_db`
(Geometries.py:595-600): its coordinate columns and its `line_id` foreign
key (`-1` meaning unattached). -/
structure DBPoint where
  east : ℚ
  north : ℚ
  line_id : Int
deriving DecidableEq, Repr

/-- A persisted `Line` row as read by the batch fetch
(Geometries.py:606): only its primary key takes part in the query. -/
structure DBLine where
  id : Int
deriving DecidableEq, Repr

/-- The database tables consulted by `Line.load_in_extent_from_db`. -/
structure GeoDB where
  points : List DBPoint
  lines : List DBLine
deriving DecidableEq, Repr

/-- The `order_by(cls.id)` ordering relation on line rows. -/
def idLe (A B : DBLine) : Prop := A.id ≤ B.id

instance : DecidableRel idLe := fun a b => inferInstanceAs (Decidable (a.id ≤ b.id))

instance : IsTotal DBLine idLe := ⟨fun a b => Int.le_total a.id b.id⟩

instance : IsTrans DBLine idLe := ⟨fun _ _ _ hab hbc => le_trans hab hbc⟩

/-- `sq.between(GeoPoint.east, min_easting, max_easting)` and the analogous
northing filter: the closed rectangle test. -/
def inExtent (minE maxE minN maxN : ℚ) (p : DBPoint) : Bool :=
  decide (minE ≤ p.east) && decide (p.east ≤ maxE) &&
    decide (minN ≤ p.north) && decide (p.north ≤ maxN)

/-- The first query of `Line.load_in_extent_from_db` (Geometries.py:595-600):
the distinct set of `line_id` values of attached points inside the extent
(the Python code wraps the id list in `set(...)`). -/
def matchingLineIds (db : GeoDB) (minE maxE minN maxN : ℚ) : List Int :=
  ((db.points.filter
      (fun p => decide (p.line_id ≠ -1) && inExtent minE maxE minN maxN p)).map
    DBPoint.line_id).dedup

/-- `Line.load_in_extent_from_db` (Geometries.py:561-609): resolve the
distinct matching line ids; if none, return the empty result immediately,
otherwise fetch the lines with those ids ordered by id. The second
component counts the queries issued (1 = only the point query ran, 2 = the
batch fetch ran as well). -/
def load_in_extent_from_db (db : GeoDB) (minE maxE minN maxN : ℚ) :
    List DBLine × Nat :=
  let ids := matchingLineIds db minE maxE minN maxN
  if ids.isEmpty then ([], 1)
  else
    (List.insertionSort idLe (db.lines.filter (fun L => decide (L.id ∈ ids))), 2)

/-- C1: constructing a Line from the singleton list `[(5,5)]` does NOT leave
the sequence untouched: the closure fold compares the lone point against
itself, deletes it and forces `closed` to true, so the constructed line has
zero points and `closed = true` although `closed = false` was requested.
This evaluates the code at the claim's failing input. -/
theorem singleton_line_is_emptied :
    Line.init false none [Elem.geoPoint (mkP 5 5)] =
      .ok { closed := true, horizon := none, points := [] } := rfl

/-- C2: `insert_points` with a position beyond the end does NOT append: on
the two-point line `[(0,0),(1,1)]`, inserting `[(2,2),(3,3)]` at position
100 executes `self.points[-1:-1] = points`, splicing the new points in
front of the last element, yielding `[(0,0),(2,2),(3,3),(1,1)]` instead of
the appended `[(0,0),(1,1),(2,2),(3,3)]`. This evaluates the code at the
claim's failing input (Scenario D). -/
theorem insert_points_beyond_end_not_append :
    Line.insert_points
      { closed := false, horizon := none,
        points := [⟨0, 0, 0, false, 0, none⟩, ⟨1, 1, 0, false, 1, none⟩] }
      [Elem.geoPoint (mkP 2 2), Elem.geoPoint (mkP 3 3)] 100 =
    .ok { closed := false, horizon := none,
          points := [⟨0, 0, 0, false, 0, none⟩, ⟨2, 2, 0, false, 1, none⟩,
                     ⟨3, 3, 0, false, 2, none⟩, ⟨1, 1, 0, false, 3, none⟩] } := rfl

/-- C3: the deduplication comparison uses the STORED altitude even when
`has_z` is false (the `altitude` getter returns `float(self.alt)`
unchanged, contradicting its own docstring): two adjacent points with
`has_z = false`, equal easting/northing and stored altitudes 1 and 2 are
NOT treated as duplicates — both survive construction. This evaluates the
code at the claim's failing input. -/
theorem stored_altitude_used_in_dedup :
    Line.init false none
      [Elem.geoPoint ⟨5, 5, 1, false, -1, none⟩,
       Elem.geoPoint ⟨5, 5, 2, false, -1, none⟩] =
    .ok { closed := false, horizon := none,
          points := [⟨5, 5, 1, false, 0, none⟩, ⟨5, 5, 2, false, 1, none⟩] } := rfl

/-- C4 counterexample: the claim asserts that once a line has been emptied
(zero points, `closed = true`), any further mutation's normalization fails
on the empty sequence. It is false: `insert_point` first inserts, so the
pipeline runs on a non-empty sequence and succeeds (the lone inserted point
is immediately folded away again). -/
theorem mutation_on_empty_line_succeeds :
    Line.insert_point { closed := true, horizon := none, points := [] }
      (Elem.geoPoint (mkP 5 5)) 0 =
    .ok { closed := true, horizon := none, points := [] } := rfl


theorem noAdjDup_cons_congr (a b : Pt) (h : a.coords = b.coords) (t : List Pt) :
    noAdjDup (a :: t) ↔ noAdjDup (b :: t) := by
  cases t with
  | nil => simp [noAdjDup]
  | cons c t' => simp [noAdjDup, h]

theorem dedupAux_eq_of_noAdjDup :
    ∀ (l : List Pt) (prev : Pt), noAdjDup (prev :: l) → dedupAux prev l = l := by
  intro l
  induction l with
  | nil => intro prev _; rfl
  | cons q rest ih =>
    intro prev h
    simp only [noAdjDup] at h
    obtain ⟨hne, h2⟩ := h
    have hq : ¬ q.coords = prev.coords := fun hc => hne hc.symm
    simp only [dedupAux, if_neg hq]
    rw [ih q h2]

theorem dedupStep_eq_of_noAdjDup (l : List Pt) (h : noAdjDup l) : dedupStep l = l := by
  cases l with
  | nil => rfl
  | cons p rest => simp only [dedupStep]; rw [dedupAux_eq_of_noAdjDup rest p h]

theorem noAdjDup_dedupAux : ∀ (l : List Pt) (prev : Pt), noAdjDup (prev :: dedupAux prev l) := by
  intro l
  induction l with
  | nil => intro prev; simp [dedupAux, noAdjDup]
  | cons q t ih =>
    intro prev
    by_cases hc : q.coords = prev.coords
    · simp only [dedupAux, if_pos hc]
      exact (noAdjDup_cons_congr prev q hc.symm _).mpr (ih q)
    · simp only [dedupAux, if_neg hc]
      have : noAdjDup (prev :: q :: dedupAux q t) :=
        ⟨fun h => hc h.symm, ih q⟩
      exact this

theorem noAdjDup_dedupStep (l : List Pt) : noAdjDup (dedupStep l) := by
  cases l with
  | nil => trivial
  | cons p rest => exact noAdjDup_dedupAux rest p

theorem noAdjDup_tail (a : Pt) (t : List Pt) (h : noAdjDup (a :: t)) : noAdjDup t := by
  cases t with
  | nil => trivial
  | cons b t' => exact h.2

theorem noAdjDup_dropLastL : ∀ l : List Pt, noAdjDup l → noAdjDup (dropLastL l) := by
  intro l
  induction l with
  | nil => intro; trivial
  | cons a t ih =>
    intro h
    cases t with
    | nil => trivial
    | cons b t' =>
      simp only [dropLastL]
      cases t' with
      | nil => trivial
      | cons c t'' =>
        simp only [dropLastL]
        exact ⟨h.1, by simpa [dropLastL] using ih (noAdjDup_tail _ _ h)⟩

theorem lastO_isSome {α : Type} : ∀ l : List α, l ≠ [] → ∃ a, lastO l = some a := by
  intro l
  induction l with
  | nil => intro h; exact absurd rfl h
  | cons a t ih =>
    intro _
    cases t with
    | nil => exact ⟨a, rfl⟩
    | cons b t' =>
      obtain ⟨c, hc⟩ := ih (by simp)
      exact ⟨c, by simpa [lastO] using hc⟩

theorem lastO_dropLastL_ne :
    ∀ l : List Pt, noAdjDup l → ∀ a b, lastO (dropLastL l) = some a →
      lastO l = some b → a.coords ≠ b.coords := by
  intro l
  induction l with
  | nil => intro _ a b ha _; simp [dropLastL, lastO] at ha
  | cons x t ih =>
    intro h a b ha hb
    cases t with
    | nil => simp [dropLastL, lastO] at ha
    | cons y t' =>
      cases t' with
      | nil =>
        simp [dropLastL, lastO] at ha hb
        subst ha; subst hb
        exact h.1
      | cons z t'' =>
        have ha' : lastO (dropLastL (y :: z :: t'')) = some a := by
          simpa [dropLastL, lastO] using ha
        have hb' : lastO (y :: z :: t'') = some b := by
          simpa [lastO] using hb
        exact ih (noAdjDup_tail _ _ h) a b ha' hb'

theorem coordsList_reorder : ∀ (n : Int) (l : List Pt), coordsList (reorder n l) = coordsList l := by
  intro n l
  induction l generalizing n with
  | nil => rfl
  | cons p rest ih =>
    show Pt.coords { p with line_pos := n } :: coordsList (reorder (n + 1) rest) =
      Pt.coords p :: coordsList rest
    rw [ih (n + 1)]
    rfl

theorem coordsList_setHorizon (hz : Option Nat) (l : List Pt) :
    coordsList (l.map (fun p => { p with horizon := hz })) = coordsList l := by
  induction l with
  | nil => rfl
  | cons p rest ih =>
    show Pt.coords { p with horizon := hz } :: coordsList (rest.map (fun p => { p with horizon := hz })) =
      Pt.coords p :: coordsList rest
    rw [ih]
    rfl

theorem noAdjDup_iff_coords : ∀ l : List Pt, noAdjDup l ↔ noAdjDupC (coordsList l) := by
  intro l
  induction l with
  | nil => simp [noAdjDup, noAdjDupC, coordsList]
  | cons a t ih =>
    cases t with
    | nil => simp [noAdjDup, noAdjDupC, coordsList]
    | cons b t' =>
      simp only [noAdjDup, coordsList, List.map_cons, noAdjDupC]
      constructor
      · rintro ⟨h1, h2⟩; exact ⟨h1, by simpa [coordsList] using (ih.mp h2)⟩
      · rintro ⟨h1, h2⟩; exact ⟨h1, ih.mpr (by simpa [coordsList] using h2)⟩

theorem lastO_coordsList : ∀ l : List Pt, lastO (coordsList l) = (lastO l).map Pt.coords := by
  intro l
  induction l with
  | nil => rfl
  | cons a t ih =>
    cases t with
    | nil => rfl
    | cons b t' => simpa [coordsList, lastO] using ih

theorem head?_coordsList (l : List Pt) : (coordsList l).head? = l.head?.map Pt.coords := by
  cases l <;> rfl

theorem reorder_map_setHorizon (hz : Option Nat) :
    ∀ (n : Int) (l : List Pt),
      reorder n (l.map (fun p => { p with horizon := hz })) =
        (reorder n l).map (fun p => { p with horizon := hz }) := by
  intro n l
  induction l generalizing n with
  | nil => rfl
  | cons p rest ih => simp only [List.map_cons, reorder, ih (n + 1)]

theorem reorder_reorder : ∀ (n : Int) (l : List Pt), reorder n (reorder n l) = reorder n l := by
  intro n l
  induction l generalizing n with
  | nil => rfl
  | cons p rest ih => simp only [reorder, ih (n + 1)]

theorem checkLine_points_horizon (st : LineState) :
    ∀ p ∈ (checkLine st).points, p.horizon = (checkLine st).horizon := by
  intro p hp
  simp only [checkLine, List.mem_map] at hp
  obtain ⟨q, _, hq⟩ := hp
  simp [checkLine, ← hq]

theorem map_setHorizon_eq_self (hz : Option Nat) :
    ∀ l : List Pt, (∀ p ∈ l, p.horizon = hz) →
      l.map (fun p => { p with horizon := hz }) = l := by
  intro l
  induction l with
  | nil => intro _; rfl
  | cons p rest ih =>
    intro h
    have hp : p.horizon = hz := h p (by simp)
    have hrest := ih (fun q hq => h q (by simp [hq]))
    simp only [List.map_cons, hrest]
    congr 1
    cases p
    simp_all

theorem checkLine_eq_self (st : LineState)
    (h : ∀ p ∈ st.points, p.horizon = st.horizon) : checkLine st = st := by
  cases st with
  | mk c hz pts =>
    simp only [checkLine]
    congr 1
    exact map_setHorizon_eq_self hz pts h

theorem normPipeline_fixed (st : LineState)
    (hprop : ∀ p ∈ st.points, p.horizon = st.horizon)
    (hdedup : noAdjDup st.points)
    (hreo : reorder 0 st.points = st.points)
    (hne : st.points ≠ [])
    (hhl : ∀ p q, st.points.head? = some p → lastO st.points = some q →
      p.coords ≠ q.coords) :
    normPipeline st = .ok st := by
  obtain ⟨q, hq⟩ := lastO_isSome st.points hne
  have hded : dedupStep st.points = st.points := dedupStep_eq_of_noAdjDup _ hdedup
  cases hp : st.points.head? with
  | none => exact absurd (List.head?_eq_none_iff.mp hp) hne
  | some p =>
    have hrm : removeDoubledPoints st = .ok st := by
      simp only [removeDoubledPoints, hded, hp, hq]
      rw [if_neg (hhl p q hp hq)]
      rw [hreo]
    rw [normPipeline, hrm]
    simp only [Except.map]
    rw [checkLine_eq_self st hprop]

theorem removeDoubledPoints_ok_shape (stz stone : LineState)
    (h : removeDoubledPoints stz = .ok stone) :
    ∃ Y : List Pt, stone.points = reorder 0 Y ∧ noAdjDup Y ∧
      stone.horizon = stz.horizon ∧
      ∀ p q, Y.head? = some p → lastO Y = some q → p.coords ≠ q.coords := by
  cases hl : dedupStep stz.points with
  | nil => simp [removeDoubledPoints, hl] at h
  | cons p rest =>
    have hnad : noAdjDup (p :: rest) := hl ▸ noAdjDup_dedupStep stz.points
    obtain ⟨q, hq⟩ := lastO_isSome (p :: rest) (by simp)
    by_cases hpq : p.coords = q.coords
    · have hst : stone =
          { stz with points := reorder 0 (dropLastL (p :: rest)), closed := true } := by
        simp only [removeDoubledPoints, hl, List.head?_cons, hq] at h
        rw [if_pos hpq] at h
        exact (Except.ok.injEq _ _).mp h |>.symm
      refine ⟨dropLastL (p :: rest), by rw [hst], noAdjDup_dropLastL _ hnad,
        by rw [hst], ?_⟩
      intro a b hha hhb
      cases rest with
      | nil => simp [dropLastL] at hha
      | cons r rest' =>
        have ha' : p = a := by simpa [dropLastL] using hha
        have hbq : b.coords ≠ q.coords := lastO_dropLastL_ne _ hnad b q hhb hq
        subst ha'
        intro hab
        exact hbq (hab ▸ hpq)
    · have hst : stone =
          { stz with points := reorder 0 (p :: rest), closed := stz.closed } := by
        simp only [removeDoubledPoints, hl, List.head?_cons, hq] at h
        rw [if_neg hpq] at h
        exact (Except.ok.injEq _ _).mp h |>.symm
      refine ⟨p :: rest, by rw [hst], hnad, by rw [hst], ?_⟩
      intro a b hha hhb
      have ha' : p = a := by simpa using hha
      have hb' : b = q := by rw [hq] at hhb; injection hhb with e; exact e.symm
      subst ha'; subst hb'
      exact hpq

theorem normPipeline_fixed_of_shape (stB : LineState) (Y : List Pt)
    (hpts : stB.points = reorder 0 Y) (hY : noAdjDup Y)
    (hYhl : ∀ p q, Y.head? = some p → lastO Y = some q → p.coords ≠ q.coords)
    (hne : (checkLine stB).points ≠ []) :
    normPipeline (checkLine stB) = .ok (checkLine stB) := by
  have hstp : (checkLine stB).points =
      (reorder 0 Y).map (fun p => { p with horizon := stB.horizon }) := by
    simp [checkLine, hpts]
  have hcoords : coordsList (checkLine stB).points = coordsList Y := by
    rw [hstp, coordsList_setHorizon, coordsList_reorder]
  have hYne : Y ≠ [] := by
    intro hemp
    rw [hemp] at hstp
    simp [reorder] at hstp
    exact hne hstp
  apply normPipeline_fixed
  · exact checkLine_points_horizon stB
  · rw [noAdjDup_iff_coords, hcoords, ← noAdjDup_iff_coords]
    exact hY
  · rw [hstp, ← reorder_map_setHorizon, reorder_reorder]
  · exact hne
  · intro p q hp hq
    cases hY' : Y.head? with
    | none => exact absurd (List.head?_eq_none_iff.mp hY') hYne
    | some pY =>
      obtain ⟨qY, hqY⟩ := lastO_isSome Y hYne
      have h1 : p.coords = pY.coords := by
        have e1 : (coordsList (checkLine stB).points).head? = some p.coords := by
          rw [head?_coordsList, hp]; rfl
        have e2 : (coordsList Y).head? = some pY.coords := by
          rw [head?_coordsList, hY']; rfl
        rw [hcoords, e2] at e1
        injection e1 with e
        exact e.symm
      have h2 : q.coords = qY.coords := by
        have e1 : lastO (coordsList (checkLine stB).points) = some q.coords := by
          rw [lastO_coordsList, hq]; rfl
        have e2 : lastO (coordsList Y) = some qY.coords := by
          rw [lastO_coordsList, hqY]; rfl
        rw [hcoords, e2] at e1
        injection e1 with e
        exact e.symm
      rw [h1, h2]
      exact hYhl pY qY hY' hqY

theorem filterMap_toPt_map_geoPoint :
    ∀ ps : List Pt, (ps.map Elem.geoPoint).filterMap Elem.toPt = ps := by
  intro ps
  induction ps with
  | nil => rfl
  | cons x t ih => simp only [List.map_cons, List.filterMap_cons, Elem.toPt, ih]

theorem normPipeline_error_iff (st : LineState) (e : PyErr) :
    normPipeline st = .error e ↔ e = PyErr.indexError ∧ st.points = [] := by
  constructor
  · intro h
    cases hl : st.points with
    | nil =>
      refine ⟨?_, rfl⟩
      have hE : normPipeline st = .error PyErr.indexError := by
        simp [normPipeline, removeDoubledPoints, hl, dedupStep, lastO, Except.map]
      rw [hE] at h
      injection h with e'
      exact e'.symm
    | cons p rest =>
      exfalso
      obtain ⟨q, hq⟩ := lastO_isSome (p :: dedupAux p rest) (by simp)
      by_cases hc : p.coords = q.coords
      · have hrm : removeDoubledPoints st = .ok { st with points := reorder 0 (dropLastL (p :: dedupAux p rest)), closed := true } := by
          simp only [removeDoubledPoints, hl, dedupStep, List.head?_cons, hq,
            if_pos hc]
        rw [normPipeline, hrm] at h
        simp [Except.map] at h
      · have hrm : removeDoubledPoints st = .ok { st with points := reorder 0 (p :: dedupAux p rest), closed := st.closed } := by
          simp only [removeDoubledPoints, hl, dedupStep, List.head?_cons, hq,
            if_neg hc]
        rw [normPipeline, hrm] at h
        simp [Except.map] at h
  · rintro ⟨rfl, h⟩
    simp [normPipeline, removeDoubledPoints, h, dedupStep, lastO, Except.map]

theorem normPipeline_isOk_of_ne_nil (st : LineState) (h : st.points ≠ []) :
    ∃ st', normPipeline st = .ok st' := by
  cases hres : normPipeline st with
  | ok st' => exact ⟨st', rfl⟩
  | error e => exact absurd ((normPipeline_error_iff st e).mp hres).2 h

/-- C4 (amended): the closure fold indexes the first and last element
unconditionally, so the normalization pipeline fails — with IndexError —
exactly when the sequence it runs on is empty (an iff). Constructing a Line
from an empty list fails there, and constructing from two points with
identical coordinate triples leaves zero points with `closed` forced to
true. On that emptied line a further mutation's normalization fails on the
empty sequence only when the mutation leaves the sequence empty:
`insert_points` with an empty point list splices nothing and raises
IndexError in the closure fold, inserting one or more points makes the
sequence non-empty first and succeeds (a single inserted point is
immediately folded away again), and deletions fail earlier with a
not-found error. -/
theorem empty_sequence_closure_fold_behavior :
    (∀ (c : Bool) (hz : Option Nat), Line.init c hz [] = .error PyErr.indexError)
  ∧ (∀ (hz : Option Nat) (p p' : Pt), p.coords = p'.coords →
      Line.init false hz [Elem.geoPoint p, Elem.geoPoint p'] =
        .ok { closed := true, horizon := hz, points := [] })
  ∧ (∀ st : LineState, normPipeline st = .error PyErr.indexError ↔ st.points = [])
  ∧ (∀ (st : LineState) (pos : Int), st.points = [] →
      Line.insert_points st [] pos = .error PyErr.indexError)
  ∧ (∀ (st : LineState) (ps : List Pt) (pos : Int), st.points = [] → ps ≠ [] →
      ∃ st', Line.insert_points st (ps.map Elem.geoPoint) pos = .ok st')
  ∧ (∀ (st : LineState) (p : Pt) (pos : Int), st.points = [] →
      Line.insert_point st (Elem.geoPoint p) pos =
        .ok { closed := true, horizon := st.horizon, points := [] })
  ∧ (∀ (st : LineState) (p : Pt), st.points = [] →
      Line.delete_point st (Elem.geoPoint p) =
        .error (PyErr.valueError ("GeoPoint not found in list!")))
  ∧ (∀ (st : LineState) (e n a prec : ℚ), st.points = [] →
      Line.delete_point_by_coordinates st e n a prec =
        .error (PyErr.valueError ("Point not found with coordinates"))) := by
  refine ⟨?_, ?_, ?_, ?_, ?_, ?_, ?_, ?_⟩
  · intro c hz; rfl
  · intro hz p p' h
    have h' : p'.coords = p.coords := h.symm
    simp [Line.init, normPipeline, removeDoubledPoints, dedupStep, dedupAux, h',
      lastO, dropLastL, reorder, checkLine, Elem.isGeoPoint, Elem.toPt, Except.map]
  · intro st
    constructor
    · intro h
      exact ((normPipeline_error_iff st PyErr.indexError).mp h).2
    · intro h
      exact (normPipeline_error_iff st PyErr.indexError).mpr ⟨rfl, h⟩
  · intro st pos h
    have hs : ∀ i : Int, pySplice st.points i [] = [] := by
      intro i
      simp [pySplice, h]
    simp only [Line.insert_points, List.all_nil, if_true, List.filterMap_nil,
      hs, ite_self]
    exact (normPipeline_error_iff _ PyErr.indexError).mpr ⟨rfl, rfl⟩
  · intro st ps pos h hne
    have hall : (ps.map Elem.geoPoint).all Elem.isGeoPoint = true := by
      simp [List.all_eq_true, Elem.isGeoPoint]
    have hfm : (ps.map Elem.geoPoint).filterMap Elem.toPt = ps :=
      filterMap_toPt_map_geoPoint ps
    have hs : ∀ i : Int, pySplice st.points i ps = ps := by
      intro i
      simp [pySplice, h]
    simp only [Line.insert_points, hall, if_true, hfm, hs, ite_self]
    exact normPipeline_isOk_of_ne_nil { st with points := ps } hne
  · intro st p pos h
    simp [Line.insert_point, pySplice, h, normPipeline, removeDoubledPoints,
      dedupStep, dedupAux, lastO, dropLastL, reorder, checkLine, Except.map]
  · intro st p h
    simp [Line.delete_point, h, removeFirst]
  · intro st e n a prec h
    simp [Line.delete_point_by_coordinates, h, deleteByCoordsGo]

/-- C4 witness: the amended statement applied at concrete inputs — the
empty constructor call and `insert_points` with an empty list on the
emptied line both fail with IndexError, the degenerate two-point
construction yields the empty closed line, inserting one point on the
emptied line succeeds, and a deletion on it fails with the not-found
ValueError. -/
theorem empty_sequence_closure_fold_witness :
    Line.init false none [] = .error PyErr.indexError
  ∧ Line.insert_points { closed := true, horizon := none, points := [] } [] 0 =
      .error PyErr.indexError
  ∧ Line.init false none [Elem.geoPoint (mkP 4 4), Elem.geoPoint (mkP 4 4)] =
      .ok { closed := true, horizon := none, points := [] }
  ∧ (∃ st', Line.insert_points { closed := true, horizon := none, points := [] }
      [Elem.geoPoint (mkP 5 5)] 0 = .ok st')
  ∧ Line.delete_point { closed := true, horizon := none, points := [] }
      (Elem.geoPoint (mkP 5 5)) =
      .error (PyErr.valueError ("GeoPoint not found in list!")) :=
  ⟨empty_sequence_closure_fold_behavior.1 false none,
   empty_sequence_closure_fold_behavior.2.2.2.1 { closed := true, horizon := none, points := [] } 0 rfl,
   empty_sequence_closure_fold_behavior.2.1 none (mkP 4 4) (mkP 4 4) rfl,
   empty_sequence_closure_fold_behavior.2.2.2.2.1 { closed := true, horizon := none, points := [] }
     [mkP 5 5] 0 rfl (by decide),
   empty_sequence_closure_fold_behavior.2.2.2.2.2.2.1 { closed := true, horizon := none, points := [] }
     (mkP 5 5) rfl⟩

/-- C5 counterexample: a line state reached by a COMPLETED construction on
which re-running the normalization pipeline is not a no-op. Constructing
from the singleton `[(5,5)]` completes and leaves the empty sequence with
`closed = true`; re-running the pipeline on that reached state raises
IndexError instead of leaving it unchanged. -/
theorem reached_state_on_which_pipeline_fails :
    Line.init false none [Elem.geoPoint (mkP 5 5)] =
      .ok { closed := true, horizon := none, points := [] } ∧
    normPipeline { closed := true, horizon := none, points := [] } =
      .error PyErr.indexError := ⟨rfl, rfl⟩

/-- C5 (amended): every state produced by a completed run of the
normalization pipeline whose point sequence is non-empty is a fixed point
of the pipeline: re-running it returns the very same sequence, ordinals and
closed flag; and this is preserved by subsequently setting the line's
stratigraphy. (The pipeline output with an EMPTY sequence — reachable, e.g.
from a singleton construction — is not a fixed point: re-running the
pipeline on it fails with IndexError instead.) -/
theorem normalization_idempotent_on_nonempty (stz st : LineState)
    (h : normPipeline stz = .ok st) (hne : st.points ≠ []) :
    normPipeline st = .ok st ∧
      ∀ hz, normPipeline (Line.setHorizon st hz) = .ok (Line.setHorizon st hz) := by
  cases hrm : removeDoubledPoints stz with
  | error e => rw [normPipeline, hrm] at h; simp [Except.map] at h
  | ok stone =>
    have hst : st = checkLine stone := by
      rw [normPipeline, hrm] at h
      simp only [Except.map] at h
      injection h with e
      exact e.symm
    obtain ⟨Y, hpts, hY, _, hYhl⟩ := removeDoubledPoints_ok_shape stz stone hrm
    constructor
    · rw [hst]
      exact normPipeline_fixed_of_shape stone Y hpts hY hYhl (hst ▸ hne)
    · intro hz
      have hsh : Line.setHorizon st hz = checkLine { stone with horizon := hz } := by
        rw [hst]
        simp only [Line.setHorizon, checkLine, List.map_map]
        congr 1
      rw [hsh]
      apply normPipeline_fixed_of_shape { stone with horizon := hz } Y hpts hY hYhl
      have hone : stone.points ≠ [] := by
        intro hemp
        apply hne
        rw [hst]
        simp [checkLine, hemp]
      simpa [checkLine] using hone

theorem normPipeline_ok_checkLine (x st' : LineState) (h : normPipeline x = .ok st') :
    ∃ y, st' = checkLine y := by
  cases hrm : removeDoubledPoints x with
  | error e => rw [normPipeline, hrm] at h; simp [Except.map] at h
  | ok y =>
    rw [normPipeline, hrm] at h
    simp only [Except.map] at h
    exact ⟨y, by injection h with e; exact e.symm⟩

theorem deleteByCoordsGo_ok_checkLine (st : LineState) (e n a prec : ℚ) :
    ∀ (l : List Pt) (k : Nat) (st' : LineState),
      deleteByCoordsGo st e n a prec k l = .ok st' → ∃ y, st' = checkLine y := by
  intro l
  induction l with
  | nil => intro k st' h; simp [deleteByCoordsGo] at h
  | cons q rest ih =>
    intro k st' h
    by_cases hm : pMatch e n a prec q
    · rw [deleteByCoordsGo, if_pos hm] at h
      exact normPipeline_ok_checkLine _ _ h
    · rw [deleteByCoordsGo, if_neg hm] at h
      exact ih (k + 1) st' h

/-- C6: classification propagation — immediately after any mutating Line
operation returns successfully (construction, insert_point, insert_points,
delete_point, delete_point_by_coordinates, setting the line's horizon,
including clearing it to none), every member point's stratigraphy reference
equals the line's: each operation ends by running `__check_line`. -/
theorem horizon_propagated_after_mutations :
    (∀ (c : Bool) (hz : Option Nat) (elems : List Elem) (st' : LineState),
        Line.init c hz elems = .ok st' → Propagated st')
  ∧ (∀ (st : LineState) (e : Elem) (pos : Int) (st' : LineState),
        Line.insert_point st e pos = .ok st' → Propagated st')
  ∧ (∀ (st : LineState) (elems : List Elem) (pos : Int) (st' : LineState),
        Line.insert_points st elems pos = .ok st' → Propagated st')
  ∧ (∀ (st : LineState) (e : Elem) (st' : LineState),
        Line.delete_point st e = .ok st' → Propagated st')
  ∧ (∀ (st : LineState) (x y a prec : ℚ) (st' : LineState),
        Line.delete_point_by_coordinates st x y a prec = .ok st' → Propagated st')
  ∧ (∀ (st : LineState) (hz : Option Nat), Propagated (Line.setHorizon st hz)) := by
  refine ⟨?_, ?_, ?_, ?_, ?_, ?_⟩
  · intro c hz elems st' h
    by_cases hall : elems.all Elem.isGeoPoint
    · rw [Line.init, if_pos hall] at h
      obtain ⟨y, hy⟩ := normPipeline_ok_checkLine _ _ h
      rw [hy]; exact checkLine_points_horizon y
    · rw [Line.init, if_neg hall] at h; simp at h
  · intro st e pos st' h
    cases e with
    | other => simp [Line.insert_point] at h
    | geoPoint p =>
      rw [Line.insert_point] at h
      obtain ⟨y, hy⟩ := normPipeline_ok_checkLine _ _ h
      rw [hy]; exact checkLine_points_horizon y
  · intro st elems pos st' h
    by_cases hall : elems.all Elem.isGeoPoint
    · rw [Line.insert_points, if_pos hall] at h
      obtain ⟨y, hy⟩ := normPipeline_ok_checkLine _ _ h
      rw [hy]; exact checkLine_points_horizon y
    · rw [Line.insert_points, if_neg hall] at h; simp at h
  · intro st e st' h
    cases e with
    | other => simp [Line.delete_point] at h
    | geoPoint p =>
      rw [Line.delete_point] at h
      cases hrf : removeFirst p st.points with
      | none => rw [hrf] at h; simp at h
      | some pts =>
        rw [hrf] at h
        obtain ⟨y, hy⟩ := normPipeline_ok_checkLine _ _ h
        rw [hy]; exact checkLine_points_horizon y
  · intro st x y a prec st' h
    rw [Line.delete_point_by_coordinates] at h
    obtain ⟨z, hz'⟩ := deleteByCoordsGo_ok_checkLine st x y a prec st.points 0 st' h
    rw [hz']; exact checkLine_points_horizon z
  · intro st hz
    exact checkLine_points_horizon { st with horizon := hz }

theorem deleteByCoordsGo_spec (st : LineState) (e n a prec : ℚ) :
    ∀ (l : List Pt) (k : Nat),
      (firstMatchIdx e n a prec l = none →
        deleteByCoordsGo st e n a prec k l =
          .error (PyErr.valueError ("Point not found with coordinates")))
      ∧ (∀ j, firstMatchIdx e n a prec l = some j →
        deleteByCoordsGo st e n a prec k l =
          normPipeline { st with points := st.points.eraseIdx (k + j) }) := by
  intro l
  induction l with
  | nil =>
    intro k
    exact ⟨fun _ => rfl, fun j hj => by simp [firstMatchIdx] at hj⟩
  | cons q rest ih =>
    intro k
    by_cases hm : pMatch e n a prec q
    · refine ⟨fun hn => ?_, fun j hj => ?_⟩
      · rw [firstMatchIdx, if_pos hm] at hn; cases hn
      · rw [firstMatchIdx, if_pos hm] at hj
        injection hj with e'
        subst e'
        rw [deleteByCoordsGo, if_pos hm]
        norm_num
    · refine ⟨fun hn => ?_, fun j hj => ?_⟩
      · rw [firstMatchIdx, if_neg hm] at hn
        rw [deleteByCoordsGo, if_neg hm]
        exact (ih (k + 1)).1 (Option.map_eq_none.mp hn)
      · rw [firstMatchIdx, if_neg hm] at hj
        obtain ⟨j', hj', hjj⟩ := Option.map_eq_some.mp hj
        subst hjj
        rw [deleteByCoordsGo, if_neg hm]
        have harith : k + 1 + j' = k + (j' + 1) := by omega
        rw [(ih (k + 1)).2 j' hj', harith]

/-- C7: `delete_point_by_coordinates` scans a snapshot of the sequence in
order and removes exactly the first point whose easting and northing match
within `float_precision` and whose altitude matches within `float_precision`
or whose `has_z` is false (then the pipeline reruns); when no point matches
the full scan completes and the call fails with the not-found ValueError,
producing no new state — sequence, ordinals and closed flag are untouched. -/
theorem delete_by_coordinates_first_match (st : LineState) (e n a prec : ℚ) :
    (firstMatchIdx e n a prec st.points = none →
      Line.delete_point_by_coordinates st e n a prec =
        .error (PyErr.valueError ("Point not found with coordinates")))
  ∧ (∀ i, firstMatchIdx e n a prec st.points = some i →
      Line.delete_point_by_coordinates st e n a prec =
        normPipeline { st with points := st.points.eraseIdx i }) := by
  constructor
  · intro hn
    rw [Line.delete_point_by_coordinates]
    exact (deleteByCoordsGo_spec st e n a prec st.points 0).1 hn
  · intro i hi
    rw [Line.delete_point_by_coordinates]
    have := (deleteByCoordsGo_spec st e n a prec st.points 0).2 i hi
    simpa using this

/-- C8: type errors are atomic — for construction, insert_point,
insert_points and delete_point, a non-GeoPoint argument makes the operation
fail with the type-mismatch error before any mutation: the error is
returned and no successor state is produced, and insert_points validates
every element before inserting any (all-or-nothing). Note the constructor
raises its type mismatch as a ValueError, the other three as TypeError,
exactly as in the source. -/
theorem type_mismatch_raised_before_mutation :
    (∀ (c : Bool) (hz : Option Nat) (elems : List Elem),
        (∃ e ∈ elems, e.isGeoPoint = false) →
        Line.init c hz elems =
          .error (PyErr.valueError ("At least on point in points is not of type GeoPoint!")))
  ∧ (∀ (st : LineState) (pos : Int),
        Line.insert_point st Elem.other pos =
          .error (PyErr.typeError ("point is not of type GeoPoint!")))
  ∧ (∀ (st : LineState) (elems : List Elem) (pos : Int),
        (∃ e ∈ elems, e.isGeoPoint = false) →
        Line.insert_points st elems pos =
          .error (PyErr.typeError ("At least on point in points is not of type GeoPoint!")))
  ∧ (∀ st : LineState,
        Line.delete_point st Elem.other =
          .error (PyErr.typeError ("point is not of type GeoPoint!"))) := by
  have hall : ∀ elems : List Elem, (∃ e ∈ elems, e.isGeoPoint = false) →
      ¬ (elems.all Elem.isGeoPoint = true) := by
    rintro elems ⟨e, he, hbad⟩ hT
    have := List.all_eq_true.mp hT e he
    rw [hbad] at this
    cases this
  refine ⟨?_, ?_, ?_, ?_⟩
  · intro c hz elems hex
    rw [Line.init, if_neg (hall elems hex)]
  · intro st pos; rfl
  · intro st elems pos hex
    rw [Line.insert_points, if_neg (hall elems hex)]
  · intro st; rfl

theorem dedupAux_aba (a b a2 : Pt) (hab : a.coords ≠ b.coords)
    (haa : a2.coords = a.coords) :
    ∀ (l1 : List Pt) (prev : Pt) (l2 : List Pt),
      (∃ m1 m2 x, dedupAux prev (l1 ++ a :: b :: a2 :: l2) = m1 ++ x :: b :: a2 :: m2 ∧
        x.coords = a.coords)
      ∨ (dedupAux prev (l1 ++ a :: b :: a2 :: l2) = b :: a2 :: dedupAux a2 l2 ∧
        prev.coords = a.coords) := by
  have hb : ¬ b.coords = a.coords := fun h => hab h.symm
  have ha2 : ¬ a2.coords = b.coords := by
    intro h; rw [haa] at h; exact hab h
  intro l1
  induction l1 with
  | nil =>
    intro prev l2
    by_cases hc : a.coords = prev.coords
    · right
      refine ⟨?_, hc.symm⟩
      show dedupAux prev (a :: b :: a2 :: l2) = _
      rw [dedupAux, if_pos hc, dedupAux, if_neg hb, dedupAux, if_neg ha2]
    · left
      refine ⟨[], dedupAux a2 l2, a, ?_, rfl⟩
      show dedupAux prev (a :: b :: a2 :: l2) = _
      rw [dedupAux, if_neg hc, dedupAux, if_neg hb, dedupAux, if_neg ha2]
      rfl
  | cons q l1' ih =>
    intro prev l2
    simp only [List.cons_append]
    by_cases hc : q.coords = prev.coords
    · rw [dedupAux, if_pos hc]
      rcases ih q l2 with ⟨m1, m2, x, hm, hx⟩ | ⟨hm, hq⟩
      · exact Or.inl ⟨m1, m2, x, hm, hx⟩
      · refine Or.inr ⟨hm, ?_⟩
        rw [← hc]
        exact hq
    · rw [dedupAux, if_neg hc]
      rcases ih q l2 with ⟨m1, m2, x, hm, hx⟩ | ⟨hm, hq⟩
      · exact Or.inl ⟨q :: m1, m2, x, by rw [hm, List.cons_append], hx⟩
      · exact Or.inl ⟨[], dedupAux a2 l2, q, by rw [hm]; rfl, hq⟩

/-- C9: adjacent-duplicate removal is a single left-to-right pass over the
snapshot, not a fixed-point iteration: whenever the coordinate pattern
A,B,A occurs contiguously anywhere in the sequence (with B distinct from
A), the pass retains the pattern — the output still contains a point with
A's coordinates immediately followed by the same B and the same second A,
so the two non-adjacent occurrences of A both survive step 1. -/
theorem dedup_single_pass_keeps_aba (l1 l2 : List Pt) (a b a2 : Pt)
    (hab : a.coords ≠ b.coords) (haa : a2.coords = a.coords) :
    ∃ m1 m2 x, dedupStep (l1 ++ a :: b :: a2 :: l2) = m1 ++ x :: b :: a2 :: m2 ∧
      x.coords = a.coords := by
  have hb : ¬ b.coords = a.coords := fun h => hab h.symm
  have ha2 : ¬ a2.coords = b.coords := by
    intro h; rw [haa] at h; exact hab h
  cases l1 with
  | nil =>
    refine ⟨[], dedupAux a2 l2, a, ?_, rfl⟩
    show dedupStep (a :: b :: a2 :: l2) = _
    rw [dedupStep, dedupAux, if_neg hb, dedupAux, if_neg ha2]
    rfl
  | cons q l1' =>
    rcases dedupAux_aba a b a2 hab haa l1' q l2 with ⟨m1, m2, x, hm, hx⟩ | ⟨hm, hq⟩
    · refine ⟨q :: m1, m2, x, ?_, hx⟩
      show dedupStep (q :: (l1' ++ a :: b :: a2 :: l2)) = _
      rw [dedupStep, hm, List.cons_append]
    · refine ⟨[], dedupAux a2 l2, q, ?_, hq⟩
      show dedupStep (q :: (l1' ++ a :: b :: a2 :: l2)) = _
      rw [dedupStep, hm]
      rfl

theorem mem_matchingLineIds (db : GeoDB) (minE maxE minN maxN : ℚ) (x : Int) :
    x ∈ matchingLineIds db minE maxE minN maxN ↔
      ∃ p ∈ db.points, p.line_id = x ∧ p.line_id ≠ -1 ∧
        inExtent minE maxE minN maxN p = true := by
  simp only [matchingLineIds, List.mem_dedup, List.mem_map, List.mem_filter]
  constructor
  · rintro ⟨p, ⟨hp, hcond⟩, hx⟩
    simp only [Bool.and_eq_true, decide_eq_true_eq] at hcond
    exact ⟨p, hp, hx, hcond.1, hcond.2⟩
  · rintro ⟨p, hp, hx, hne, hext⟩
    exact ⟨p, ⟨hp, by simp [hne, hext]⟩, hx⟩

/-- C10: the lines-in-extent query returns exactly the lines having at
least one attached member point inside the closed rectangle, ordered by
line identifier ascending; it resolves the distinct matching line ids
first, and when that set is empty it returns the empty result having
issued only the first query (no batch fetch). -/
theorem lines_in_extent_query (db : GeoDB) (minE maxE minN maxN : ℚ) :
    (∀ L : DBLine, L ∈ (load_in_extent_from_db db minE maxE minN maxN).1 ↔
        L ∈ db.lines ∧ ∃ p ∈ db.points, p.line_id = L.id ∧ p.line_id ≠ -1 ∧
          inExtent minE maxE minN maxN p = true)
  ∧ List.Sorted idLe (load_in_extent_from_db db minE maxE minN maxN).1
  ∧ ((¬ ∃ p ∈ db.points, p.line_id ≠ -1 ∧ inExtent minE maxE minN maxN p = true) →
      load_in_extent_from_db db minE maxE minN maxN = ([], 1)) := by
  by_cases hids : (matchingLineIds db minE maxE minN maxN).isEmpty
  · have hnil : matchingLineIds db minE maxE minN maxN = [] :=
      List.isEmpty_iff.mp hids
    refine ⟨?_, ?_, ?_⟩
    · intro L
      simp only [load_in_extent_from_db, hids, if_pos]
      constructor
      · intro h; simp at h
      · rintro ⟨hL, p, hp, hx, hne, hext⟩
        have : L.id ∈ matchingLineIds db minE maxE minN maxN :=
          (mem_matchingLineIds db minE maxE minN maxN L.id).mpr ⟨p, hp, hx, hne, hext⟩
        rw [hnil] at this
        simp at this
    · simp [load_in_extent_from_db, hids]
    · intro _
      simp [load_in_extent_from_db, hids]
  · refine ⟨?_, ?_, ?_⟩
    · intro L
      simp only [load_in_extent_from_db, hids, if_neg, Bool.false_eq_true,
        not_false_iff]
      rw [(List.perm_insertionSort idLe _).mem_iff, List.mem_filter]
      simp only [decide_eq_true_eq]
      rw [mem_matchingLineIds]
    · simp only [load_in_extent_from_db, hids, if_neg, Bool.false_eq_true,
        not_false_iff]
      exact List.sorted_insertionSort idLe _
    · intro hno
      exfalso
      apply hids
      rw [List.isEmpty_iff, List.eq_nil_iff_forall_not_mem]
      intro x hx
      obtain ⟨p, hp, hxeq, hne, hext⟩ :=
        (mem_matchingLineIds db minE maxE minN maxN x).mp hx
      exact hno ⟨p, hp, hne, hext⟩


/-- C5 witness: the idempotence theorem applied to the concrete two-point
line `[(0,0),(1,1)]`, whose pipeline output is non-empty and is reproduced
exactly by a second pipeline run. -/
theorem normalization_idempotent_witness :
    normPipeline
      { closed := false, horizon := none,
        points := [⟨0, 0, 0, false, 0, none⟩, ⟨1, 1, 0, false, 1, none⟩] } =
    .ok { closed := false, horizon := none,
          points := [⟨0, 0, 0, false, 0, none⟩, ⟨1, 1, 0, false, 1, none⟩] } :=
  (normalization_idempotent_on_nonempty
    { closed := false, horizon := none, points := [mkP 0 0, mkP 1 1] }
    { closed := false, horizon := none,
      points := [⟨0, 0, 0, false, 0, none⟩, ⟨1, 1, 0, false, 1, none⟩] }
    rfl (by decide)).1

/-- C6 witness: clearing the horizon of a concrete one-point line leaves the
member point with a cleared classification, by the propagation theorem. -/
theorem horizon_propagated_witness :
    Pt.horizon ⟨1, 2, 0, false, 0, none⟩ =
      LineState.horizon (Line.setHorizon
        { closed := false, horizon := some 3,
          points := [⟨1, 2, 0, false, 0, some 3⟩] } none) :=
  horizon_propagated_after_mutations.2.2.2.2.2
    { closed := false, horizon := some 3,
      points := [⟨1, 2, 0, false, 0, some 3⟩] } none
    ⟨1, 2, 0, false, 0, none⟩ (by decide)

/-- C7 witness: on the concrete line `[(0,0),(9,9)]`, deleting by the
coordinates (9,9) with tolerance 1 removes the second point — the first
match of the scan — and reruns the pipeline. -/
theorem delete_by_coordinates_witness :
    Line.delete_point_by_coordinates
      { closed := false, horizon := none,
        points := [⟨0, 0, 0, false, 0, none⟩, ⟨9, 9, 0, false, 1, none⟩] }
      9 9 0 1 =
    normPipeline
      { closed := false, horizon := none,
        points := [⟨0, 0, 0, false, 0, none⟩] } :=
  (delete_by_coordinates_first_match
    { closed := false, horizon := none,
      points := [⟨0, 0, 0, false, 0, none⟩, ⟨9, 9, 0, false, 1, none⟩] }
    9 9 0 1).2 1 (by norm_num [firstMatchIdx, pMatch, ratAbs])

/-- C8 witness: `insert_points` with a non-GeoPoint element fails with the
TypeError and produces no state. -/
theorem type_mismatch_witness :
    Line.insert_points { closed := false, horizon := none, points := [] }
      [Elem.other] 0 =
    .error (PyErr.typeError ("At least on point in points is not of type GeoPoint!")) :=
  type_mismatch_raised_before_mutation.2.2.1
    { closed := false, horizon := none, points := [] } [Elem.other] 0
    ⟨Elem.other, by decide, rfl⟩

/-- C9 witness: on the concrete pattern `[(0,0),(1,1),(0,0)]` the
deduplication pass keeps all three points. -/
theorem dedup_keeps_aba_witness :
    ∃ m1 m2 x, dedupStep [mkP 0 0, mkP 1 1, mkP 0 0] =
      m1 ++ x :: mkP 1 1 :: mkP 0 0 :: m2 ∧ x.coords = (mkP 0 0).coords :=
  dedup_single_pass_keeps_aba [] [] (mkP 0 0) (mkP 1 1) (mkP 0 0)
    (by decide) rfl

/-- C10 witness: a database with one line (id 7) and one attached point at
(1,1): the extent query over [0,2] x [0,2] returns that line, sorted. -/
theorem lines_in_extent_witness :
    DBLine.mk 7 ∈ (load_in_extent_from_db ⟨[⟨1, 1, 7⟩], [⟨7⟩]⟩ 0 2 0 2).1 ∧
    List.Sorted idLe (load_in_extent_from_db ⟨[⟨1, 1, 7⟩], [⟨7⟩]⟩ 0 2 0 2).1 :=
  ⟨((lines_in_extent_query ⟨[⟨1, 1, 7⟩], [⟨7⟩]⟩ 0 2 0 2).1 ⟨7⟩).mpr
      ⟨by decide, ⟨1, 1, 7⟩, by decide, rfl, by decide, by decide⟩,
    (lines_in_extent_query ⟨[⟨1, 1, 7⟩], [⟨7⟩]⟩ 0 2 0 2).2.1⟩
